import Mathlib

/-!
Verification of the arbitrage-detection core of `src/main.py`
(class `BinanceArbitrageBot`).

Embedding conventions:
* Python floats are modelled as exact rationals (`ℚ`).  Every claim settled
  here is decided at values far from binary-float rounding boundaries, so the
  idealisation is faithful for these claims.
* `round(x, 2)` is modelled as `round2` below.  Python rounds the underlying
  binary double half-to-even; `round2` rounds half away from zero upward via
  Mathlib's `round`.  No input used by any claim lies at a half-cent boundary,
  so the two agree on everything proved here.
* The Python price dict is modelled as an association list with unique keys;
  `lookup?` returns the first binding, `getD` is `dict.get(k, default)`.
* Exceptions are modelled explicitly: a fetch is an `Except Unit` value, and
  the one arithmetic operation in `calculate_arbitrage` that can raise
  (`ZeroDivisionError` on a zero divisor) is guarded by explicit zero tests
  whose failure branch reproduces the `except` handler (skip the candidate).
* The threading of `run_analysis` / `start_analysis` / `stop_analysis` is
  modelled as an interleaving transition system: command handlers run
  atomically (each is a single bounded critical section in the polling
  thread), and each analysis thread advances by labelled scheduler events.
-/

namespace ArbBot

/-- Runtime configuration of the bot: `self.min_spread`, `self.fee`,
`self.initial_deposit` in `BinanceArbitrageBot.__init__`. -/
structure Config where
  min_spread : ℚ
  fee : ℚ
  initial_deposit : ℚ
deriving DecidableEq, Repr

/-- Constructor defaults: `min_spread=3.0, fee=0.001, initial_deposit=1000.0`. -/
def defaultConfig : Config := ⟨3, 1/1000, 1000⟩

/-- One opportunity record `{"coin": .., "spread": .., "profit": ..}` as built
in `calculate_arbitrage`. -/
structure Opportunity where
  coin : String
  spread : ℚ
  profit : ℚ
deriving DecidableEq, Repr

/-- A price snapshot: the dict built by `get_prices`, as an association list
with unique keys. -/
def Snapshot : Type := List (String × ℚ)

/-- First binding of key `k`, i.e. `prices[k]` when present (`dict` lookup). -/
def lookup? (prices : Snapshot) (k : String) : Option ℚ :=
  (prices.find? (fun p => p.1 = k)).map (fun p => p.2)

/-- Python `prices.get(k, d)`. -/
def getD (prices : Snapshot) (k : String) (d : ℚ) : ℚ :=
  (lookup? prices k).getD d

/-- Python `round(x, 2)` (see the file header for the half-way caveat).
`⌊q * 100 + 1/2⌋ / 100` is round-half-up at two decimal places; it coincides
with Mathlib's `round (q * 100) / 100` by `round_eq`. -/
def round2 (q : ℚ) : ℚ := ((⌊q * 100 + 1/2⌋ : ℤ) : ℚ) / 100

/-- The body of the `for coin in self.btc_pairs` loop in
`calculate_arbitrage`, for one candidate, with the cross rate
`btc_usdt = prices.get('BTCUSDT', 1)` passed in.  Returns `none` when the
candidate contributes nothing: a missing leg (`continue`), a caught
`ZeroDivisionError` (zero `X/USDT` price or zero deposit), or a spread not
exceeding the threshold. -/
def evalCandidate (cfg : Config) (prices : Snapshot) (btc_usdt : ℚ)
    (coin : String) : Option Opportunity :=
  let usdt_pair := coin ++ "USDT"
  let btc_pair := coin ++ "BTC"
  match lookup? prices usdt_pair, lookup? prices btc_pair with
  | some pU, some pB =>
      if pU = 0 then none          -- ZeroDivisionError in `initial_deposit / prices[usdt_pair]`, caught
      else if cfg.initial_deposit = 0 then none  -- ZeroDivisionError in `final_usdt / initial_deposit`, caught
      else
        let coins_bought := cfg.initial_deposit / pU * (1 - cfg.fee)
        let btc_earned := coins_bought * pB * (1 - cfg.fee)
        let final_usdt := btc_earned * btc_usdt * (1 - cfg.fee)
        let spread := (final_usdt / cfg.initial_deposit - 1) * 100
        if spread > cfg.min_spread then
          some ⟨coin, round2 spread, round2 (final_usdt - cfg.initial_deposit)⟩
        else none
  | _, _ => none

/-- The exact (pre-rounding) spread computed for one candidate whose legs are
present, matching the `spread` local of `calculate_arbitrage`. -/
def exactSpread (cfg : Config) (prices : Snapshot) (btc_usdt : ℚ)
    (coin : String) : ℚ :=
  let pU := getD prices (coin ++ "USDT") 0
  let pB := getD prices (coin ++ "BTC") 0
  let coins_bought := cfg.initial_deposit / pU * (1 - cfg.fee)
  let btc_earned := coins_bought * pB * (1 - cfg.fee)
  let final_usdt := btc_earned * btc_usdt * (1 - cfg.fee)
  (final_usdt / cfg.initial_deposit - 1) * 100

/-- The exact profit `final_usdt - initial_deposit` before rounding. -/
def exactProfit (cfg : Config) (prices : Snapshot) (btc_usdt : ℚ)
    (coin : String) : ℚ :=
  let pU := getD prices (coin ++ "USDT") 0
  let pB := getD prices (coin ++ "BTC") 0
  cfg.initial_deposit / pU * (1 - cfg.fee) * pB * (1 - cfg.fee) * btc_usdt
    * (1 - cfg.fee) - cfg.initial_deposit

/-- The `opportunities` list of `calculate_arbitrage` before sorting, in
candidate iteration order. -/
def opportunitiesOf (cfg : Config) (btc_pairs : List String)
    (prices : Snapshot) (btc_usdt : ℚ) : List Opportunity :=
  btc_pairs.filterMap (evalCandidate cfg prices btc_usdt)

/-- Descending-spread comparison used by the final
`sorted(..., key=lambda x: x["spread"], reverse=True)`. -/
def spreadGE (a b : Opportunity) : Prop := b.spread ≤ a.spread

instance : DecidableRel spreadGE := fun a b => inferInstanceAs (Decidable (b.spread ≤ a.spread))

instance : IsTotal Opportunity spreadGE := ⟨fun a b => le_total b.spread a.spread⟩

instance : IsTrans Opportunity spreadGE := ⟨fun _ _ _ h h2 => le_trans h2 h⟩

/-- A stable descending sort by spread.  Python's `sorted` with
`reverse=True` is stable descending; `List.insertionSort spreadGE` produces
the same (unique) stable descending rearrangement. -/
def sortOpps (l : List Opportunity) : List Opportunity :=
  List.insertionSort spreadGE l

/-- `calculate_arbitrage` with the cross rate passed explicitly (the value of
the local `btc_usdt`). -/
def calcWithCross (cfg : Config) (btc_pairs : List String)
    (prices : Snapshot) (btc_usdt : ℚ) : List Opportunity :=
  sortOpps (opportunitiesOf cfg btc_pairs prices btc_usdt)

/-- `BinanceArbitrageBot.calculate_arbitrage(prices)`:
`btc_usdt = prices.get('BTCUSDT', 1)`, then filterMap over `btc_pairs`, then
the stable descending sort by spread. -/
def calculate_arbitrage (cfg : Config) (btc_pairs : List String)
    (prices : Snapshot) : List Opportunity :=
  calcWithCross cfg btc_pairs prices (getD prices "BTCUSDT" 1)

/-! Instrument-universe resolver: `get_trade_pairs`. -/

/-- One record of `exchangeInfo`'s `symbols` array, with the three fields
`get_trade_pairs` reads. -/
structure SymbolInfo where
  baseAsset : String
  quoteAsset : String
  status : String
deriving DecidableEq, Repr

/-- Base assets of TRADING instruments quoted in `quote`, in input order:
the contents of the sets `btc_coins` / `usdt_coins` built by
`get_trade_pairs`. -/
def tradingBases (quote : String) (symbols : List SymbolInfo) : List String :=
  (symbols.filter (fun s => decide (s.status = "TRADING") && decide (s.quoteAsset = quote))).map
    (fun s => s.baseAsset)

/-- `list(btc_coins & usdt_coins)`: the base assets present in both
partitions.  Python's set intersection enumerates in an unspecified
(hash-dependent) order; the model fixes first-appearance order in the BTC
partition.  No claim settled here depends on the order of the result. -/
def resolvePairs (symbols : List SymbolInfo) : List String :=
  ((tradingBases "BTC" symbols).dedup).filter
    (fun b => decide (b ∈ tradingBases "USDT" symbols))

/-- `BinanceArbitrageBot.get_trade_pairs`, as a function from the previous
value of `self.btc_pairs` and the outcome of the `exchangeInfo` fetch/parse
to the new value of `self.btc_pairs`.  The `except` handler only logs, so on
failure the attribute keeps its previous value. -/
def get_trade_pairs (btc_pairs : List String)
    (fetched : Except Unit (List SymbolInfo)) : List String :=
  match fetched with
  | Except.ok symbols => resolvePairs symbols
  | Except.error _ => btc_pairs

/-! Configuration setters: `set_min_spread`, `set_fee`, `set_deposit`.
Each handler extracts `float(message.text.split()[1])`; any failure there
(missing argument or non-numeric text) raises inside the `try` and is
answered with the usage error message.  The model takes that parse outcome
as an `Option ℚ` argument; the returned `Bool` is `true` for the success
message and `false` for the error message. -/

/-- `set_min_spread`: stores any parsed value, with no range check. -/
def set_min_spread (cfg : Config) (arg : Option ℚ) : Config × Bool :=
  match arg with
  | some v => ({ cfg with min_spread := v }, true)
  | none => (cfg, false)

/-- `set_fee`: stores the parsed value only when `0 <= value <= 1`;
otherwise `raise ValueError` lands in the `except` branch. -/
def set_fee (cfg : Config) (arg : Option ℚ) : Config × Bool :=
  match arg with
  | some v => if 0 ≤ v ∧ v ≤ 1 then ({ cfg with fee := v }, true) else (cfg, false)
  | none => (cfg, false)

/-- `set_deposit`: stores the parsed value only when `value > 0`. -/
def set_deposit (cfg : Config) (arg : Option ℚ) : Config × Bool :=
  match arg with
  | some v => if 0 < v then ({ cfg with initial_deposit := v }, true) else (cfg, false)
  | none => (cfg, false)

/-! Subscription and loop controller: `start_analysis`, `stop_analysis`,
`run_analysis`, modelled as an interleaving transition system.  Command
handlers run atomically in the polling thread; every analysis thread spawned
by `start_analysis` is a separate task advancing by scheduler events. -/

/-- Control position of one `run_analysis` thread: `check` is the top of the
`while self.running` loop, `sleeping` is inside `time.sleep(60)` at the
bottom of the body, `dead` means the `while` condition was seen false and
the thread returned. -/
inductive Phase where
  | check
  | sleeping
  | dead
deriving DecidableEq, Repr

/-- One background analysis thread: its control position and how many loop
bodies (ticks) it has executed. -/
structure LoopTask where
  phase : Phase
  ticks : ℕ
deriving DecidableEq, Repr

/-- The shared state of `BinanceArbitrageBot` relevant to the loop life
cycle: `self.running`, `self.user_chat_ids` (a set, modelled as a
duplicate-free list) and every analysis thread ever spawned. -/
structure BotState where
  running : Bool
  user_chat_ids : List ℤ
  tasks : List LoopTask
deriving DecidableEq, Repr

/-- Fresh bot: `running = False`, no subscribers, no threads. -/
def initState : BotState := ⟨false, [], []⟩

/-- `start_analysis(message)` for `chat_id = chat`: add the subscriber if
absent, and if `self.running` is false, set it true and spawn a new
`run_analysis` thread at the top of its loop. -/
def start_analysis (s : BotState) (chat : ℤ) : BotState :=
  let s1 := if chat ∈ s.user_chat_ids then s
            else { s with user_chat_ids := s.user_chat_ids ++ [chat] }
  if s1.running then s1
  else { s1 with running := true, tasks := s1.tasks ++ [⟨Phase.check, 0⟩] }

/-- `stop_analysis(message)` for `chat_id = chat`: drop the subscriber if
present, and clear `self.running` when the subscriber set became empty. -/
def stop_analysis (s : BotState) (chat : ℤ) : BotState :=
  let s1 := { s with user_chat_ids := s.user_chat_ids.erase chat }
  if s1.user_chat_ids = [] then { s1 with running := false } else s1

/-- One scheduler step of a single `run_analysis` thread.  At `check` with
`running` true the thread executes one tick body — `tickOk` tells whether the
body raised, but the `try`/`except` in `run_analysis` absorbs the exception
either way, so the thread proceeds to `time.sleep(60)` unconditionally.  At
`check` with `running` false the `while` exits and the thread dies.  A
sleeping thread wakes back to `check`. -/
def stepTask (running : Bool) (tickOk : Bool) (t : LoopTask) : LoopTask :=
  match t.phase with
  | Phase.check =>
      if running then ⟨Phase.sleeping, t.ticks + 1⟩ else ⟨Phase.dead, t.ticks⟩
  | Phase.sleeping => ⟨Phase.check, t.ticks⟩
  | Phase.dead => t

/-- Replace the element at index `i` (out-of-range indices leave the list
unchanged). -/
def modifyAt (f : LoopTask → LoopTask) : ℕ → List LoopTask → List LoopTask
  | _, [] => []
  | 0, t :: ts => f t :: ts
  | n + 1, t :: ts => t :: modifyAt f n ts

/-- Interleaving events: a `/start` command, a `/stop` command, or one
scheduler step of analysis thread `i` whose tick outcome is `tickOk`. -/
inductive Event where
  | startCmd (chat : ℤ)
  | stopCmd (chat : ℤ)
  | threadStep (i : ℕ) (tickOk : Bool)
deriving DecidableEq, Repr

/-- Apply one event to the shared state. -/
def applyEvent (s : BotState) : Event → BotState
  | Event.startCmd c => start_analysis s c
  | Event.stopCmd c => stop_analysis s c
  | Event.threadStep i ok =>
      { s with tasks := modifyAt (stepTask s.running ok) i s.tasks }

/-- Run a whole event trace from the fresh state. -/
def runTrace (es : List Event) : BotState := es.foldl applyEvent initState

/-- Number of analysis threads that have been spawned and have not exited. -/
def liveTasks (s : BotState) : ℕ :=
  (s.tasks.filter (fun t => decide (t.phase ≠ Phase.dead))).length

/-! Concrete inputs used by the claims. -/

/-- Snapshot of the spec's profitable example scenario:
`{BTCUSDT: 60000, ABCUSDT: 2.0, ABCBTC: 0.00005}`. -/
def snapC2 : Snapshot := [("BTCUSDT", 60000), ("ABCUSDT", 2), ("ABCBTC", 1/20000)]

/-- Configuration `{minSpread: 3.0, fee: 0, deposit: 1000.0}`: a zero fee is
inside the declared range `0 ≤ feeFraction ≤ 1`. -/
def cfgC5 : Config := ⟨3, 0, 1000⟩

/-- Snapshot without `BTCUSDT` whose exact spread under `cfgC5` is `3.002`:
`{ABCUSDT: 1.0, ABCBTC: 1.03002}` with the cross-rate fallback `1`. -/
def snapC5 : Snapshot := [("ABCUSDT", 1), ("ABCBTC", 103002/100000)]

/-- Configuration `{minSpread: 2.0, fee: 0, deposit: 1000.0}`. -/
def cfgC10 : Config := ⟨2, 0, 1000⟩

/-- Snapshot without `BTCUSDT` whose exact spread under `cfgC10` is `2.004`:
`{ABCUSDT: 1.0, ABCBTC: 1.02004}`. -/
def snapC10 : Snapshot := [("ABCUSDT", 1), ("ABCBTC", 102004/100000)]

/-- Snapshot without the `BTCUSDT` cross pair but with both legs of `ABC`. -/
def snapC6 : Snapshot := [("ABCUSDT", 2), ("ABCBTC", 1/20000)]

/-- Snapshot in which candidate `ZERO` has a zero `ZEROUSDT` price (a
`ZeroDivisionError` inside the per-candidate `try`) while candidate `ABC` is
well-priced. -/
def snapC8 : Snapshot :=
  [("BTCUSDT", 60000), ("ZEROUSDT", 0), ("ZEROBTC", 5), ("ABCUSDT", 2), ("ABCBTC", 1/20000)]

/-- Interleaving exhibiting the duplicated loop: subscriber 1 starts the
loop, the loop thread runs one tick and sleeps, subscriber 1 unsubscribes
(clearing `running`), subscriber 2 subscribes while the first thread is
still inside `time.sleep(60)` (spawning a second thread), the first thread
wakes, sees `running` true again and ticks, and the second thread ticks
too. -/
def raceTrace : List Event :=
  [Event.startCmd 1, Event.threadStep 0 true, Event.stopCmd 1,
   Event.startCmd 2, Event.threadStep 0 true, Event.threadStep 0 true,
   Event.threadStep 1 true]

/-! Helper lemmas. -/

/-- Characterisation of a successful per-candidate evaluation: the emitted
record carries the candidate's name, its exact spread strictly exceeds the
threshold, and the stored fields are the rounded exact spread and profit. -/
theorem evalCandidate_some_spec {cfg : Config} {prices : Snapshot} {cross : ℚ}
    {coin : String} {o : Opportunity}
    (h : evalCandidate cfg prices cross coin = some o) :
    o.coin = coin ∧ cfg.min_spread < exactSpread cfg prices cross coin ∧
      o.spread = round2 (exactSpread cfg prices cross coin) ∧
      o.profit = round2 (exactProfit cfg prices cross coin) := by
  simp only [evalCandidate] at h
  cases hU : lookup? prices (coin ++ "USDT") with
  | none => rw [hU] at h; exact absurd h (by simp)
  | some pU =>
    cases hB : lookup? prices (coin ++ "BTC") with
    | none => rw [hU, hB] at h; exact absurd h (by simp)
    | some pB =>
      rw [hU, hB] at h
      simp only at h
      by_cases hz : pU = 0
      · rw [if_pos hz] at h; exact absurd h (by simp)
      · rw [if_neg hz] at h
        by_cases hd : cfg.initial_deposit = 0
        · rw [if_pos hd] at h; exact absurd h (by simp)
        · rw [if_neg hd] at h
          have hs : exactSpread cfg prices cross coin =
              (cfg.initial_deposit / pU * (1 - cfg.fee) * pB * (1 - cfg.fee) * cross
                * (1 - cfg.fee) / cfg.initial_deposit - 1) * 100 := by
            simp [exactSpread, getD, hU, hB]
          have hp : exactProfit cfg prices cross coin =
              cfg.initial_deposit / pU * (1 - cfg.fee) * pB * (1 - cfg.fee) * cross
                * (1 - cfg.fee) - cfg.initial_deposit := by
            simp [exactProfit, getD, hU, hB]
          by_cases hgt : cfg.min_spread <
              (cfg.initial_deposit / pU * (1 - cfg.fee) * pB * (1 - cfg.fee) * cross
                * (1 - cfg.fee) / cfg.initial_deposit - 1) * 100
          · rw [if_pos hgt] at h
            obtain rfl := Option.some_injective _ h
            refine ⟨rfl, by rw [hs]; exact hgt, by rw [hs], by rw [hp]⟩
          · rw [if_neg hgt] at h; exact absurd h (by simp)

/-- Membership in the calculator output, rephrased through
`evalCandidate`. -/
theorem mem_calculate_arbitrage {cfg : Config} {btc_pairs : List String}
    {prices : Snapshot} {o : Opportunity} :
    o ∈ calculate_arbitrage cfg btc_pairs prices ↔
      ∃ coin ∈ btc_pairs,
        evalCandidate cfg prices (getD prices "BTCUSDT" 1) coin = some o := by
  unfold calculate_arbitrage calcWithCross sortOpps opportunitiesOf
  rw [(List.perm_insertionSort spreadGE _).mem_iff]
  exact List.mem_filterMap

/-- Inserting `a` into `l` in descending-spread position preserves the
sublist of entries of any fixed spread `q`, with `a` (if of spread `q`)
placed before the existing ones: every element skipped over has a strictly
larger spread and therefore a spread other than `q`. -/
theorem filter_spread_orderedInsert (q : ℚ) (a : Opportunity)
    (l : List Opportunity) :
    (List.orderedInsert spreadGE a l).filter (fun o => decide (o.spread = q))
      = (if a.spread = q then [a] else [])
        ++ l.filter (fun o => decide (o.spread = q)) := by
  induction l with
  | nil => by_cases h : a.spread = q <;> simp [List.orderedInsert, h]
  | cons b l ih =>
    rw [List.orderedInsert]
    by_cases hr : spreadGE a b
    · rw [if_pos hr]
      by_cases h : a.spread = q <;> by_cases hb : b.spread = q <;>
        simp [List.filter_cons, h, hb]
    · rw [if_neg hr]
      by_cases hb : b.spread = q
      · have ha : ¬ a.spread = q := by
          intro hq
          exact hr (le_of_eq (by rw [hb, hq] : b.spread = a.spread))
        simp [List.filter_cons, hb, ha, ih]
      · simp [List.filter_cons, hb, ih]

/-- The descending insertion sort is stable: for every spread value `q`, the
entries of spread `q` appear in the sorted output in exactly the order they
had in the input. -/
theorem filter_spread_insertionSort (q : ℚ) (l : List Opportunity) :
    (List.insertionSort spreadGE l).filter (fun o => decide (o.spread = q))
      = l.filter (fun o => decide (o.spread = q)) := by
  induction l with
  | nil => rfl
  | cons a l ih =>
    rw [List.insertionSort, filter_spread_orderedInsert, ih]
    by_cases h : a.spread = q <;> simp [List.filter_cons, h]

/-- Concrete run of the calculator on the spec's profitable example:
`1000/2.0 * 0.999 = 499.5` units, `499.5 * 0.00005 * 0.999 = 0.024950025`
BTC, `* 60000 * 0.999 = 1495.5044985` USDT, spread `49.55044985` → stored
`49.55`, profit `495.5044985` → stored `495.50`. -/
theorem calc_snapC2_eq :
    calculate_arbitrage defaultConfig ["ABC"] snapC2
      = [⟨"ABC", 4955/100, 49550/100⟩] := by
  have h1 : getD snapC2 "BTCUSDT" 1 = 60000 := rfl
  have h2 : lookup? snapC2 ("ABC" ++ "USDT") = some 2 := rfl
  have h3 : lookup? snapC2 ("ABC" ++ "BTC") = some (1/20000) := rfl
  simp only [calculate_arbitrage, calcWithCross, opportunitiesOf, sortOpps,
    evalCandidate, defaultConfig, h1, h2, h3, List.filterMap_cons,
    List.filterMap_nil, List.insertionSort, List.orderedInsert,
    Opportunity.mk.injEq, List.cons.injEq, round2]
  norm_num

/-- Concrete run for the threshold-equality input of C5: exact spread
`3.002 > 3` so the entry is emitted, but its stored spread is
`round(3.002, 2) = 3.0`, exactly the configured minimum. -/
theorem calc_snapC5_eq :
    calculate_arbitrage cfgC5 ["ABC"] snapC5 = [⟨"ABC", 3, 3002/100⟩] := by
  have h1 : getD snapC5 "BTCUSDT" 1 = 1 := rfl
  have h2 : lookup? snapC5 ("ABC" ++ "USDT") = some 1 := rfl
  have h3 : lookup? snapC5 ("ABC" ++ "BTC") = some (103002/100000) := rfl
  simp only [calculate_arbitrage, calcWithCross, opportunitiesOf, sortOpps,
    evalCandidate, cfgC5, h1, h2, h3, List.filterMap_cons,
    List.filterMap_nil, List.insertionSort, List.orderedInsert,
    Opportunity.mk.injEq, List.cons.injEq, round2]
  norm_num

/-- Concrete run for the threshold-equality input of C10: exact spread
`2.004 > 2`, stored spread `round(2.004, 2) = 2.0 = min_spread`, stored
profit `round(20.04, 2) = 20.04`. -/
theorem calc_snapC10_eq :
    calculate_arbitrage cfgC10 ["ABC"] snapC10 = [⟨"ABC", 2, 2004/100⟩] := by
  have h1 : getD snapC10 "BTCUSDT" 1 = 1 := rfl
  have h2 : lookup? snapC10 ("ABC" ++ "USDT") = some 1 := rfl
  have h3 : lookup? snapC10 ("ABC" ++ "BTC") = some (102004/100000) := rfl
  simp only [calculate_arbitrage, calcWithCross, opportunitiesOf, sortOpps,
    evalCandidate, cfgC10, h1, h2, h3, List.filterMap_cons,
    List.filterMap_nil, List.insertionSort, List.orderedInsert,
    Opportunity.mk.injEq, List.cons.injEq, round2]
  norm_num

/-! Claim theorems. -/

/-- C2, counterexample: on the spec's profitable example scenario the code
emits exactly one Opportunity `{asset: "ABC", spread: 49.55, profit:
495.50}`; the claimed output with profit `495.51` is not the result.  The
exact profit is `495.5044985`, which `round(_, 2)` takes to `495.50`. -/
theorem c2_counterexample :
    calculate_arbitrage defaultConfig ["ABC"] snapC2
        = [⟨"ABC", 4955/100, 49550/100⟩] ∧
    calculate_arbitrage defaultConfig ["ABC"] snapC2
        ≠ [⟨"ABC", 4955/100, 49551/100⟩] := by
  refine ⟨calc_snapC2_eq, ?_⟩
  rw [calc_snapC2_eq]
  simp only [ne_eq, List.cons.injEq, Opportunity.mk.injEq, and_true]
  intro hcontra
  exact absurd hcontra.2.2 (by norm_num)

/-- C2, amended: with configuration `{minSpread: 3.0, fee: 0.001, deposit:
1000.0}`, snapshot `{BTCUSDT: 60000, ABCUSDT: 2.0, ABCBTC: 0.00005}` and
candidate set `{ABC}`, `calculate_arbitrage` returns exactly one
Opportunity, with asset `"ABC"`, spreadPercent `49.55` and profit
`495.50`. -/
theorem c2_example_scenario :
    calculate_arbitrage defaultConfig ["ABC"] snapC2
      = [⟨"ABC", 4955/100, 49550/100⟩] :=
  calc_snapC2_eq

/-- C5, counterexample: with threshold `3.0` and an exact spread of `3.002`,
an Opportunity is emitted whose stored `spreadPercent` is `3.0`, so not
every emitted entry has `spreadPercent` strictly above
`config.minSpreadPercent`. -/
theorem c5_counterexample :
    calculate_arbitrage cfgC5 ["ABC"] snapC5 = [⟨"ABC", 3, 3002/100⟩] ∧
    ¬ (∀ o ∈ calculate_arbitrage cfgC5 ["ABC"] snapC5,
        cfgC5.min_spread < o.spread) := by
  refine ⟨calc_snapC5_eq, fun hall => ?_⟩
  have hmem : (⟨"ABC", 3, 3002/100⟩ : Opportunity)
      ∈ calculate_arbitrage cfgC5 ["ABC"] snapC5 := by
    rw [calc_snapC5_eq]; exact List.mem_singleton.mpr rfl
  have := hall _ hmem
  simp only [cfgC5] at this
  exact absurd this (by norm_num)

/-- C5, amended: the strict-threshold filter is applied to the exact
(unrounded) spread: every emitted entry's exact spread strictly exceeds
`min_spread`, and a candidate whose exact spread does not strictly exceed
the threshold contributes no entry.  (The stored, rounded `spreadPercent`
may equal the threshold; see the C10 theorem.) -/
theorem c5_threshold_strict_exact (cfg : Config) (btc_pairs : List String)
    (prices : Snapshot) :
    (∀ o ∈ calculate_arbitrage cfg btc_pairs prices,
        cfg.min_spread < exactSpread cfg prices (getD prices "BTCUSDT" 1) o.coin) ∧
    (∀ coin ∈ btc_pairs,
        exactSpread cfg prices (getD prices "BTCUSDT" 1) coin ≤ cfg.min_spread →
        ∀ o ∈ calculate_arbitrage cfg btc_pairs prices, o.coin ≠ coin) := by
  have hmain : ∀ o ∈ calculate_arbitrage cfg btc_pairs prices,
      cfg.min_spread < exactSpread cfg prices (getD prices "BTCUSDT" 1) o.coin := by
    intro o ho
    obtain ⟨coin, -, hev⟩ := mem_calculate_arbitrage.mp ho
    obtain ⟨hcoin, hlt, -, -⟩ := evalCandidate_some_spec hev
    rw [hcoin]
    exact hlt
  refine ⟨hmain, fun coin _ hle o ho hcoin => ?_⟩
  have := hmain o ho
  rw [hcoin] at this
  exact absurd this (not_lt.mpr hle)

/-- C5, amended, witness: on the profitable example input the sole emitted
entry's exact spread `49.55044985` strictly exceeds the threshold `3`. -/
theorem c5_threshold_strict_exact_witness :
    defaultConfig.min_spread
      < exactSpread defaultConfig snapC2 (getD snapC2 "BTCUSDT" 1) "ABC" :=
  (c5_threshold_strict_exact defaultConfig ["ABC"] snapC2).1
    ⟨"ABC", 4955/100, 49550/100⟩
    (by rw [calc_snapC2_eq]; exact List.mem_singleton.mpr rfl)

/-- C6: when the snapshot lacks `BTCUSDT`, `calculate_arbitrage` is exactly
the same computation with the cross rate `1` — every candidate is still
evaluated against the fallback rather than skipped or failed. -/
theorem c6_missing_cross_fallback (cfg : Config) (btc_pairs : List String)
    (prices : Snapshot) (h : lookup? prices "BTCUSDT" = none) :
    calculate_arbitrage cfg btc_pairs prices
      = calcWithCross cfg btc_pairs prices 1 := by
  unfold calculate_arbitrage getD
  rw [h]
  rfl

/-- C6, witness: a snapshot with both legs of `ABC` but no `BTCUSDT`. -/
theorem c6_missing_cross_fallback_witness :
    lookup? snapC6 "BTCUSDT" = none ∧
    calculate_arbitrage defaultConfig ["ABC"] snapC6
      = calcWithCross defaultConfig ["ABC"] snapC6 1 :=
  ⟨rfl, c6_missing_cross_fallback defaultConfig ["ABC"] snapC6 rfl⟩

/-- C7: the output of `calculate_arbitrage` is sorted by `spread` in
descending order (`List.Sorted spreadGE` is exactly: every entry's spread is
`≥` every later entry's, so in particular adjacent pairs descend), and the
sort is stable: for each spread value the entries carrying it appear in the
order of the pre-sort candidate iteration. -/
theorem c7_sorted_stable (cfg : Config) (btc_pairs : List String)
    (prices : Snapshot) :
    List.Sorted spreadGE (calculate_arbitrage cfg btc_pairs prices) ∧
    ∀ q : ℚ,
      (calculate_arbitrage cfg btc_pairs prices).filter
          (fun o => decide (o.spread = q))
        = (opportunitiesOf cfg btc_pairs prices (getD prices "BTCUSDT" 1)).filter
            (fun o => decide (o.spread = q)) := by
  unfold calculate_arbitrage calcWithCross sortOpps
  exact ⟨List.sorted_insertionSort spreadGE _,
    fun q => filter_spread_insertionSort q _⟩

/-- C8: a candidate whose per-candidate computation raises (a zero `X/USDT`
price, or a zero deposit, giving `ZeroDivisionError`) is skipped, and the
batch result is exactly the result for the candidate list without it. -/
theorem c8_bad_candidate_skipped (cfg : Config) (prices : Snapshot)
    (l₁ l₂ : List String) (c : String)
    (h : lookup? prices (c ++ "USDT") = some 0 ∨ cfg.initial_deposit = 0) :
    calculate_arbitrage cfg (l₁ ++ c :: l₂) prices
      = calculate_arbitrage cfg (l₁ ++ l₂) prices := by
  have hnone : ∀ cross, evalCandidate cfg prices cross c = none := by
    intro cross
    simp only [evalCandidate]
    cases hU : lookup? prices (c ++ "USDT") with
    | none => rfl
    | some pU =>
      cases hB : lookup? prices (c ++ "BTC") with
      | none => rfl
      | some pB =>
        rcases h with h0 | hd
        · rw [hU] at h0
          have : pU = 0 := Option.some.inj h0
          simp [this]
        · by_cases hz : pU = 0
          · simp [hz]
          · simp [hz, hd]
  unfold calculate_arbitrage calcWithCross opportunitiesOf
  rw [List.filterMap_append, List.filterMap_cons_none (hnone _),
    ← List.filterMap_append]

/-- C8, witness: dropping the zero-priced candidate `ZERO` from the batch
leaves the result unchanged. -/
theorem c8_bad_candidate_skipped_witness :
    lookup? snapC8 ("ZERO" ++ "USDT") = some 0 ∧
    calculate_arbitrage defaultConfig ([] ++ "ZERO" :: ["ABC"]) snapC8
      = calculate_arbitrage defaultConfig ([] ++ ["ABC"]) snapC8 :=
  ⟨rfl, c8_bad_candidate_skipped defaultConfig snapC8 [] ["ABC"] "ZERO" (Or.inl rfl)⟩

/-- C10: the strict filter is applied to the exact spread while the stored
`spreadPercent` is that spread rounded to 2 decimals, and consequently there
are inputs where an emitted Opportunity's stored `spreadPercent` equals the
configured minimum (threshold `2`, exact spread `2.004`, stored spread
`2.0`). -/
theorem c10_rounded_spread_at_threshold :
    (∀ (cfg : Config) (btc_pairs : List String) (prices : Snapshot)
        (o : Opportunity), o ∈ calculate_arbitrage cfg btc_pairs prices →
        cfg.min_spread < exactSpread cfg prices (getD prices "BTCUSDT" 1) o.coin ∧
        o.spread = round2 (exactSpread cfg prices (getD prices "BTCUSDT" 1) o.coin)) ∧
    calculate_arbitrage cfgC10 ["ABC"] snapC10
      = [⟨"ABC", cfgC10.min_spread, 2004/100⟩] := by
  constructor
  · intro cfg btc_pairs prices o ho
    obtain ⟨coin, -, hev⟩ := mem_calculate_arbitrage.mp ho
    obtain ⟨hcoin, hlt, hspread, -⟩ := evalCandidate_some_spec hev
    rw [hcoin]
    exact ⟨hlt, hspread⟩
  · rw [calc_snapC10_eq]
    rfl

/-- C10, witness: the general half applied to the concrete threshold-equal
entry of the C10 scenario. -/
theorem c10_rounded_spread_at_threshold_witness :
    cfgC10.min_spread
        < exactSpread cfgC10 snapC10 (getD snapC10 "BTCUSDT" 1) "ABC" ∧
    (⟨"ABC", 2, 2004/100⟩ : Opportunity).spread
        = round2 (exactSpread cfgC10 snapC10 (getD snapC10 "BTCUSDT" 1) "ABC") :=
  c10_rounded_spread_at_threshold.1 cfgC10 ["ABC"] snapC10 ⟨"ABC", 2, 2004/100⟩
    (by rw [calc_snapC10_eq]; exact List.mem_singleton.mpr rfl)

/-- C3, counterexample: after a failed `exchangeInfo` fetch the candidate
list is whatever it was before — here `["ABC"]`, not the empty set the claim
requires. -/
theorem c3_counterexample :
    get_trade_pairs ["ABC"] (Except.error ()) = ["ABC"] ∧
    get_trade_pairs ["ABC"] (Except.error ()) ≠ [] :=
  ⟨rfl, by intro h; exact absurd h (by simp [get_trade_pairs])⟩

/-- C3, amended: on a transport/parse failure `get_trade_pairs` leaves
`self.btc_pairs` unchanged (the `except` branch only logs), so the candidate
set used by subsequent ticks is the previous one — empty only if it was
already empty. -/
theorem c3_failure_keeps_pairs (prev : List String) (e : Unit) :
    get_trade_pairs prev (Except.error e) = prev := rfl

/-- C4, counterexample: `set_min_spread` has no range check, so the
out-of-range value `-5` (violating `minSpreadPercent > 0`) is accepted with
a success message and overwrites the prior value `3`. -/
theorem c4_counterexample :
    set_min_spread defaultConfig (some (-5))
        = ({ defaultConfig with min_spread := -5 }, true) ∧
    (set_min_spread defaultConfig (some (-5))).1.min_spread
        ≠ defaultConfig.min_spread := by
  refine ⟨rfl, ?_⟩
  show (-5 : ℚ) ≠ 3
  norm_num

/-- C4, amended: non-numeric input is always rejected with the prior value
retained; `set_fee` and `set_deposit` also enforce their declared ranges
(`0 ≤ fee ≤ 1`, `deposit > 0`), but `set_min_spread` accepts every numeric
value — including zero and negative spreads — and stores it. -/
theorem c4_setters_spec (cfg : Config) (v : ℚ) :
    set_min_spread cfg none = (cfg, false) ∧
    set_min_spread cfg (some v) = ({ cfg with min_spread := v }, true) ∧
    set_fee cfg none = (cfg, false) ∧
    (0 ≤ v → v ≤ 1 → set_fee cfg (some v) = ({ cfg with fee := v }, true)) ∧
    (¬ (0 ≤ v ∧ v ≤ 1) → set_fee cfg (some v) = (cfg, false)) ∧
    set_deposit cfg none = (cfg, false) ∧
    (0 < v → set_deposit cfg (some v) = ({ cfg with initial_deposit := v }, true)) ∧
    (v ≤ 0 → set_deposit cfg (some v) = (cfg, false)) := by
  refine ⟨rfl, rfl, rfl, ?_, ?_, rfl, ?_, ?_⟩
  · intro h0 h1
    show (if 0 ≤ v ∧ v ≤ 1 then _ else _) = _
    rw [if_pos ⟨h0, h1⟩]
  · intro h
    show (if 0 ≤ v ∧ v ≤ 1 then _ else _) = _
    rw [if_neg h]
  · intro h
    show (if 0 < v then _ else _) = _
    rw [if_pos h]
  · intro h
    show (if 0 < v then _ else _) = _
    rw [if_neg (not_lt.mpr h)]

/-- C4, amended, witness: an in-range fee is stored, an out-of-range fee is
rejected, an in-range deposit is stored. -/
theorem c4_setters_spec_witness :
    set_fee defaultConfig (some (1/2)) = ({ defaultConfig with fee := 1/2 }, true) ∧
    set_fee defaultConfig (some 2) = (defaultConfig, false) ∧
    set_deposit defaultConfig (some 5)
      = ({ defaultConfig with initial_deposit := 5 }, true) :=
  ⟨(c4_setters_spec defaultConfig (1/2)).2.2.2.1 (by norm_num) (by norm_num),
   (c4_setters_spec defaultConfig 2).2.2.2.2.1 (by norm_num),
   (c4_setters_spec defaultConfig 5).2.2.2.2.2.2.1 (by norm_num)⟩

/-- C1: the trace `raceTrace` is a legal interleaving of the handlers and
the scheduler after which two analysis threads are alive at once, each
having executed a tick since the second subscribe — the boolean
`self.running` guard of `start_analysis` does not prevent a second
`run_analysis` thread while the first is still inside `time.sleep(60)`. -/
theorem c1_single_loop_violation :
    runTrace raceTrace
      = ⟨true, [2], [⟨Phase.sleeping, 2⟩, ⟨Phase.sleeping, 1⟩]⟩ ∧
    liveTasks (runTrace raceTrace) = 2 :=
  ⟨rfl, rfl⟩

/-! Controller helper lemmas used by the C9 theorem. -/

/-- `start_analysis` always leaves `running` true: it either finds it true
or sets it. -/
theorem start_analysis_running (s : BotState) (c : ℤ) :
    (start_analysis s c).running = true := by
  unfold start_analysis
  by_cases hm : c ∈ s.user_chat_ids <;> by_cases hr : s.running <;>
    simp [hm, hr]

/-- `start_analysis` keeps the existing threads, appending a fresh one only
when `running` was false. -/
theorem start_analysis_tasks (s : BotState) (c : ℤ) :
    (start_analysis s c).tasks
      = if s.running then s.tasks else s.tasks ++ [⟨Phase.check, 0⟩] := by
  unfold start_analysis
  by_cases hm : c ∈ s.user_chat_ids <;> by_cases hr : s.running <;>
    simp [hm, hr]

/-- `stop_analysis` never touches the thread list. -/
theorem stop_analysis_tasks (s : BotState) (c : ℤ) :
    (stop_analysis s c).tasks = s.tasks := by
  unfold stop_analysis
  by_cases he : s.user_chat_ids.erase c = [] <;> simp [he]

/-- `stop_analysis` removes the subscriber. -/
theorem stop_analysis_user (s : BotState) (c : ℤ) :
    (stop_analysis s c).user_chat_ids = s.user_chat_ids.erase c := by
  unfold stop_analysis
  by_cases he : s.user_chat_ids.erase c = [] <;> simp [he]

/-- `stop_analysis` clears `running` exactly when the subscriber set became
empty. -/
theorem stop_analysis_running (s : BotState) (c : ℤ) :
    (stop_analysis s c).running
      = if s.user_chat_ids.erase c = [] then false else s.running := by
  unfold stop_analysis
  by_cases he : s.user_chat_ids.erase c = [] <;> simp [he]

/-- Reading `modifyAt`: position `n` is mapped through `f`, all others are
untouched. -/
theorem modifyAt_getElem? (f : LoopTask → LoopTask) :
    ∀ (n : ℕ) (l : List LoopTask) (i : ℕ),
      (modifyAt f n l)[i]? = if i = n then Option.map f l[i]? else l[i]?
  | _, [], i => by simp [modifyAt]
  | 0, t :: ts, 0 => by simp [modifyAt]
  | 0, t :: ts, i + 1 => by simp [modifyAt]
  | n + 1, t :: ts, 0 => by simp [modifyAt]
  | n + 1, t :: ts, i + 1 => by
      simp [modifyAt, modifyAt_getElem? f n ts i]

/-- C9: (a) a thread at the top of its loop with `running` true executes one
tick and goes to sleep whether or not the tick body raised — the
`try`/`except` absorbs the exception; (b) a live thread can only exit when
`running` is false; (c) from a running state, `running` can only become
false through a `/stop` command that empties the subscriber set. -/
theorem c9_loop_survives_tick_errors :
    (∀ (s : BotState) (i : ℕ) (ok : Bool) (t : LoopTask),
        s.tasks[i]? = some t → t.phase = Phase.check → s.running = true →
        (applyEvent s (Event.threadStep i ok)).tasks[i]?
          = some ⟨Phase.sleeping, t.ticks + 1⟩) ∧
    (∀ (s : BotState) (e : Event) (i : ℕ) (t t' : LoopTask),
        s.tasks[i]? = some t → t.phase ≠ Phase.dead →
        (applyEvent s e).tasks[i]? = some t' → t'.phase = Phase.dead →
        s.running = false) ∧
    (∀ (s : BotState) (e : Event),
        s.running = true → (applyEvent s e).running = false →
        ∃ c, e = Event.stopCmd c ∧ (applyEvent s e).user_chat_ids = []) := by
  refine ⟨?_, ?_, ?_⟩
  · intro s i ok t ht htc hrun
    show (modifyAt (stepTask s.running ok) i s.tasks)[i]? = _
    rw [modifyAt_getElem? (stepTask s.running ok) i s.tasks i, if_pos rfl, ht]
    simp [stepTask, htc, hrun]
  · intro s e i t t' ht htlive ht' htdead
    cases e with
    | startCmd c =>
        cases hrun : s.running with
        | false => rfl
        | true =>
            exfalso
            have htasks : (applyEvent s (Event.startCmd c)).tasks = s.tasks := by
              show (start_analysis s c).tasks = s.tasks
              rw [start_analysis_tasks, if_pos hrun]
            rw [htasks, ht] at ht'
            obtain rfl := Option.some.inj ht'
            exact htlive htdead
    | stopCmd c =>
        cases hrun : s.running with
        | false => rfl
        | true =>
            exfalso
            have htasks : (applyEvent s (Event.stopCmd c)).tasks = s.tasks :=
              stop_analysis_tasks s c
            rw [htasks, ht] at ht'
            obtain rfl := Option.some.inj ht'
            exact htlive htdead
    | threadStep j ok =>
        cases hrun : s.running with
        | false => rfl
        | true =>
            exfalso
            have htasks : (applyEvent s (Event.threadStep j ok)).tasks
                = modifyAt (stepTask s.running ok) j s.tasks := rfl
            rw [htasks, modifyAt_getElem?] at ht'
            by_cases hij : i = j
            · rw [if_pos hij, ht, Option.map_some'] at ht'
              have hstep : stepTask s.running ok t = t' := Option.some.inj ht'
              rw [← hstep] at htdead
              cases hp : t.phase with
              | check => simp [stepTask, hp, hrun] at htdead
              | sleeping => simp [stepTask, hp] at htdead
              | dead => exact htlive hp
            · rw [if_neg hij, ht] at ht'
              obtain rfl := Option.some.inj ht'
              exact htlive htdead
  · intro s e hrun hrun'
    cases e with
    | startCmd c =>
        exact absurd hrun' (by rw [show (applyEvent s (Event.startCmd c)).running
          = true from start_analysis_running s c]; simp)
    | stopCmd c =>
        by_cases he : s.user_chat_ids.erase c = []
        · exact ⟨c, rfl, by rw [show (applyEvent s (Event.stopCmd c)).user_chat_ids
            = s.user_chat_ids.erase c from stop_analysis_user s c]; exact he⟩
        · exfalso
          have heq : (applyEvent s (Event.stopCmd c)).running = s.running := by
            rw [show (applyEvent s (Event.stopCmd c)).running
              = if s.user_chat_ids.erase c = [] then false else s.running
              from stop_analysis_running s c, if_neg he]
          rw [heq, hrun] at hrun'
          exact absurd hrun' (by simp)
    | threadStep j ok =>
        have : (applyEvent s (Event.threadStep j ok)).running = s.running := rfl
        rw [this, hrun] at hrun'
        exact absurd hrun' (by simp)

/-- C9, witness: a running thread ticks and sleeps even when the tick body
raised (`tickOk = false`); a thread at `check` dies only in a state where
`running` is already false; and a `/stop` emptying the subscriber set is
the event that clears `running`. -/
theorem c9_loop_survives_tick_errors_witness :
    (applyEvent ⟨true, [1], [⟨Phase.check, 0⟩]⟩
        (Event.threadStep 0 false)).tasks[0]? = some ⟨Phase.sleeping, 1⟩ ∧
    (⟨false, [], [⟨Phase.check, 3⟩]⟩ : BotState).running = false ∧
    (∃ c, Event.stopCmd (1:ℤ) = Event.stopCmd c ∧
        (applyEvent ⟨true, [1], [⟨Phase.check, 0⟩]⟩
          (Event.stopCmd 1)).user_chat_ids = []) :=
  ⟨c9_loop_survives_tick_errors.1 ⟨true, [1], [⟨Phase.check, 0⟩]⟩ 0 false
      ⟨Phase.check, 0⟩ rfl rfl rfl,
   c9_loop_survives_tick_errors.2.1 ⟨false, [], [⟨Phase.check, 3⟩]⟩
      (Event.threadStep 0 true) 0 ⟨Phase.check, 3⟩ ⟨Phase.dead, 3⟩ rfl
      (by decide) rfl rfl,
   c9_loop_survives_tick_errors.2.2 ⟨true, [1], [⟨Phase.check, 0⟩]⟩
      (Event.stopCmd 1) rfl rfl⟩

end ArbBot
